import Mathlib

/-!
Shallow embedding of the nexus-backend music-library server.

The embedding models the JSON-file document stores (tracks, playlists,
users, token blocklist), the pagination helpers, the Unicode path
resolver, and the range-streaming endpoint.  File-backed state is
modelled as the in-memory list that `loadAll`/`saveAll` read and write;
every repository operation returns an `OpResult` carrying its return
value, the persisted state after the call, and the trace of
`loadAll`/`saveAll` events it performed, so that read/write discipline
is itself provable.
-/

namespace Nexus

/-- Event recorded by a repository operation: one `loadAll` of the
backing JSON file, or one `saveAll` overwrite of it. -/
inductive Ev where
  | load
  | save
deriving DecidableEq, Repr

/-- Result of a repository operation: the value returned to the caller,
the persisted collection after the call, and the ordered trace of
file events the operation performed. -/
structure OpResult (ρ : Type) (σ : Type) where
  ret : ρ
  state : σ
  trace : List Ev
deriving DecidableEq, Repr

/-- Number of `loadAll` events in a trace. -/
def loadCount (es : List Ev) : Nat := es.countP (fun e => e == Ev.load)

/-- Number of `saveAll` events in a trace. -/
def saveCount (es : List Ev) : Nat := es.countP (fun e => e == Ev.save)

/-- Model of JavaScript `String.prototype.toLowerCase` as used by the
store (the repository data is ASCII-cased; `Char.toLower` lower-cases
the ASCII range). -/
def jsToLower (s : String) : String := String.mk (s.toList.map Char.toLower)

/-- Model of JavaScript `String.prototype.includes`: `needle` occurs as
a contiguous substring of the haystack (empty needle always matches). -/
def listContainsSub (needle : List Char) : List Char → Bool
  | [] => needle.isEmpty
  | x :: xs => needle.isPrefixOf (x :: xs) || listContainsSub needle xs

/-- String-level wrapper for `listContainsSub`. -/
def jsIncludes (s sub : String) : Bool := listContainsSub sub.toList s.toList

/-- Model of JavaScript `Array.prototype.findIndex` fused with the
subsequent indexed access `arr[index]`: returns the first index whose
element satisfies `q`, together with that element; `none` models the
`-1` result. -/
def findIdxElem (q : α → Bool) : List α → Option (Nat × α)
  | [] => none
  | x :: xs => if q x then some (0, x) else Option.map (fun ip => (ip.1 + 1, ip.2)) (findIdxElem q xs)

/-!
Document-store loader (`src/models/trackStore.js` `getAllTracks`,
`getAllPlaylists`, `src/models/userStore` `getAllUsers`, and the token
blocklist `getBlocklist` all share this exact shape):

```js
try {
  const data = fs.readFileSync(FILE, 'utf8');
  return JSON.parse(data);
} catch (err) {
  if (err.code === 'ENOENT') { return []; }
  throw err;
}
```
-/

/-- Outcome of the `fs.readFileSync` call: file content, a missing-file
error (`ENOENT`), or any other I/O error carrying its error code. -/
inductive FsReadResult where
  | content (s : String)
  | errENOENT
  | errOther (code : String)
deriving DecidableEq, Repr

/-- The shared loader of all four document stores.  `parse` abstracts
`JSON.parse` (returning `none` when it would throw a `SyntaxError`,
which carries no `err.code` and is therefore rethrown by the catch). -/
def loadAllDocs (r : FsReadResult) (parse : String → Option (List α)) : Except String (List α) :=
  match r with
  | .errENOENT => .ok []
  | .errOther code => .error code
  | .content s =>
    match parse s with
    | some docs => .ok docs
    | none => .error "SyntaxError"

/-!
Track store (`src/models/trackStore.js`, first document).  The store
state is the parsed content of `data/tracks.json`.
-/

/-- Track record, restricted to the fields the embedded operations
read.  `createdAt` is the epoch timestamp `Date.getTime()` would
yield. -/
structure Track where
  id : String
  trackName : String
  artist : String
  album : Option String
  createdAt : Nat
deriving DecidableEq, Repr

/-- Embedding of `getAllTracks()`: reads the backing file once. -/
def getAllTracksT (st : List Track) : List Track × List Ev := (st, [Ev.load])

/-- Embedding of `saveAllTracks(tracks)`: one overwrite of the file. -/
def saveAllTracksEv : List Ev := [Ev.save]

/-- Predicate of `findByArtistAndName`: case-insensitive equality on
both the artist and the track name. -/
def trackMatches (artist trackName : String) (t : Track) : Bool :=
  (jsToLower t.artist == jsToLower artist) && (jsToLower t.trackName == jsToLower trackName)

/-- Embedding of `findByArtistAndName(artist, trackName)`. -/
def findByArtistAndName (st : List Track) (artist trackName : String) :
    OpResult (Option Track) (List Track) :=
  let (tracks, e) := getAllTracksT st
  ⟨tracks.find? (trackMatches artist trackName), st, e⟩

/-- Embedding of `findById(id)` on the track store. -/
def findById (st : List Track) (id : String) : OpResult (Option Track) (List Track) :=
  let (tracks, e) := getAllTracksT st
  ⟨tracks.find? (fun t => t.id == id), st, e⟩

/-- Embedding of `findByIds(ids)`: the JS builds a `Map` keyed by id
(later duplicates overwrite earlier ones, hence the reversed lookup),
then maps ids and filters out the misses, preserving input order. -/
def findByIds (st : List Track) (ids : List String) : OpResult (List Track) (List Track) :=
  let (tracks, e) := getAllTracksT st
  ⟨ids.filterMap (fun i => tracks.reverse.find? (fun t => t.id == i)), st, e⟩

/-- Embedding of `addTrack(track)`: a duplicate-key lookup (which loads
the file) and, on a miss, a second load followed by append and save. -/
def addTrack (st : List Track) (t : Track) : OpResult Track (List Track) :=
  let fr := findByArtistAndName st t.artist t.trackName
  match fr.ret with
  | some existing => ⟨existing, st, fr.trace⟩
  | none =>
    let (tracks, e2) := getAllTracksT st
    let tracks' := tracks ++ [t]
    ⟨t, tracks', fr.trace ++ e2 ++ saveAllTracksEv⟩

/-- Embedding of `addTracks(newTracks)`: one load, a per-element
duplicate check against the growing in-memory list, one save. -/
def addTracksMany (st : List Track) (newTracks : List Track) :
    OpResult (List Track) (List Track) :=
  let (tracks0, e) := getAllTracksT st
  let step := fun (acc : List Track × List Track) (nt : Track) =>
    match acc.1.find? (trackMatches nt.artist nt.trackName) with
    | some ex => (acc.1, acc.2 ++ [ex])
    | none => (acc.1 ++ [nt], acc.2 ++ [nt])
  let r := newTracks.foldl step (tracks0, [])
  ⟨r.2, r.1, e ++ saveAllTracksEv⟩

/-- Search filter of `getAll`: substring, case-insensitive, OR-ed over
trackName, artist and (when truthy) album; the empty query keeps
everything (`if (search)` is falsy on the empty string). -/
def searchFilter (search : String) (tracks : List Track) : List Track :=
  if search == "" then tracks
  else
    let sl := jsToLower search
    tracks.filter (fun t =>
      jsIncludes (jsToLower t.trackName) sl ||
      jsIncludes (jsToLower t.artist) sl ||
      (match t.album with
       | some a => !(a == "") && jsIncludes (jsToLower a) sl
       | none => false))

/-- Stable descending insertion by `createdAt`, modelling the JS stable
`Array.prototype.sort((a, b) => b.createdAt - a.createdAt)`. -/
def insertByCreatedDesc (t : Track) : List Track → List Track
  | [] => [t]
  | u :: us => if u.createdAt < t.createdAt then t :: u :: us else u :: insertByCreatedDesc t us

/-- Sort used by `getAll` for `sort=newest`. -/
def sortNewest (ts : List Track) : List Track := ts.foldr insertByCreatedDesc []

/-- Paginated result as returned by the listing operations. -/
structure PageResult (α : Type) where
  data : List α
  page : Nat
  limit : Nat
  total : Nat
  totalPages : Nat
  hasNext : Bool
  hasPrev : Bool
deriving DecidableEq, Repr

/-- Embedding of the track store `getAll({page, limit, search, sort})`.
Callers reach it through `parsePaginationParams`, which guarantees
`page ≥ 1` and `limit ≥ 1`; under that guarantee `Math.ceil(total /
limit)` is the Nat ceiling division and `slice(startIndex, endIndex)`
is drop-then-take.  Note: the page is used as given, with no clamping
to `totalPages`. -/
def getAll (st : List Track) (page limit : Nat) (search sortQ : String) :
    OpResult (PageResult Track) (List Track) :=
  let (tracks0, e) := getAllTracksT st
  let tracks1 := searchFilter search tracks0
  let tracks2 := if sortQ == "newest" then sortNewest tracks1 else tracks1
  let total := tracks2.length
  let totalPages := (total + limit - 1) / limit
  let startIndex := (page - 1) * limit
  let data := (tracks2.drop startIndex).take limit
  ⟨⟨data, page, limit, total, totalPages, decide (page < totalPages), decide (1 < page)⟩, st, e⟩

/-- Embedding of `paginate(items, page, limit)` from
`src/utils/pagination.js` (for `limit ≥ 1`): here `totalPages` has the
`|| 1` floor and the page is clamped through
`Math.max(1, Math.min(page, totalPages))`. -/
def paginate (items : List α) (page limit : Nat) : PageResult α :=
  let total := items.length
  let tp := (total + limit - 1) / limit
  let totalPages := if tp == 0 then 1 else tp
  let safePage := max 1 (min page totalPages)
  let startIndex := (safePage - 1) * limit
  let data := (items.drop startIndex).take limit
  ⟨data, safePage, limit, total, totalPages, decide (safePage < totalPages), decide (1 < safePage)⟩

/-!
Playlist store (`src/models/trackStore.js`, second document).  The
store state is the parsed content of `data/playlists.json`.
-/

/-- Playlist record. `createdAt`/`updatedAt` are the ISO strings
`new Date().toISOString()` would yield; the current time is passed to
each mutating operation as `now`. -/
structure Playlist where
  id : String
  userId : String
  name : String
  trackIds : List String
  createdAt : String
  updatedAt : String
deriving DecidableEq, Repr

/-- Embedding of `getAllPlaylists()`. -/
def getAllPlaylistsT (st : List Playlist) : List Playlist × List Ev := (st, [Ev.load])

/-- Embedding of `saveAllPlaylists(playlists)`. -/
def saveAllPlaylistsEv : List Ev := [Ev.save]

/-- Ownership predicate used by every mutating playlist operation:
`p.id === playlistId && p.userId === userId`. -/
def pOwned (pid uid : String) (p : Playlist) : Bool :=
  (p.id == pid) && (p.userId == uid)

/-- Embedding of the playlist store `getByUserId(userId, {page, limit})`
(for `page ≥ 1`, `limit ≥ 1`, as guaranteed by
`parsePaginationParams`).  Like `getAll`, it does not clamp the page. -/
def getByUserId (st : List Playlist) (uid : String) (page limit : Nat) :
    OpResult (PageResult Playlist) (List Playlist) :=
  let (ps, e) := getAllPlaylistsT st
  let mine := ps.filter (fun p => p.userId == uid)
  let total := mine.length
  let totalPages := (total + limit - 1) / limit
  let startIndex := (page - 1) * limit
  let data := (mine.drop startIndex).take limit
  ⟨⟨data, page, limit, total, totalPages, decide (page < totalPages), decide (1 < page)⟩, st, e⟩

/-- Embedding of `findByUserIdAndName(userId, name)`. -/
def findByUserIdAndName (st : List Playlist) (uid nm : String) :
    OpResult (Option Playlist) (List Playlist) :=
  let (ps, e) := getAllPlaylistsT st
  ⟨ps.find? (fun p => (p.userId == uid) && (jsToLower p.name == jsToLower nm)), st, e⟩

/-- Embedding of the playlist store `create(playlist)`. -/
def createP (now : String) (st : List Playlist) (p : Playlist) :
    OpResult Playlist (List Playlist) :=
  let (ps, e) := getAllPlaylistsT st
  let newP := { p with createdAt := now, updatedAt := now }
  ⟨newP, ps ++ [newP], e ++ saveAllPlaylistsEv⟩

/-- Update payload of the playlist `update`: `undefined` fields are
modelled as `none` and are filtered out (`allowedUpdates` keeps only
`name` and `trackIds`). -/
structure PlaylistUpdates where
  name : Option String
  trackIds : Option (List String)
deriving DecidableEq, Repr

/-- Embedding of the playlist store `update(id, userId, updates)`. -/
def updateP (now : String) (st : List Playlist) (pid uid : String) (u : PlaylistUpdates) :
    OpResult (Option Playlist) (List Playlist) :=
  let (ps, e) := getAllPlaylistsT st
  match findIdxElem (pOwned pid uid) ps with
  | none => ⟨none, st, e⟩
  | some (i, p) =>
    let p' := { p with
      name := u.name.getD p.name,
      trackIds := u.trackIds.getD p.trackIds,
      updatedAt := now }
    ⟨some p', ps.set i p', e ++ saveAllPlaylistsEv⟩

/-- Embedding of the playlist store `remove(id, userId)`. -/
def removeP (st : List Playlist) (pid uid : String) : OpResult Bool (List Playlist) :=
  let (ps, e) := getAllPlaylistsT st
  match findIdxElem (pOwned pid uid) ps with
  | none => ⟨false, st, e⟩
  | some (i, _) => ⟨true, ps.eraseIdx i, e ++ saveAllPlaylistsEv⟩

/-- Embedding of the playlist store `addTrack(playlistId, userId,
trackId)`: append-if-absent; the timestamp bump and the save happen
only inside the `!includes` branch. -/
def addTrackP (now : String) (st : List Playlist) (pid uid tid : String) :
    OpResult (Option Playlist) (List Playlist) :=
  let (ps, e) := getAllPlaylistsT st
  match findIdxElem (pOwned pid uid) ps with
  | none => ⟨none, st, e⟩
  | some (i, p) =>
    if p.trackIds.contains tid then ⟨some p, st, e⟩
    else
      let p' := { p with trackIds := p.trackIds ++ [tid], updatedAt := now }
      ⟨some p', ps.set i p', e ++ saveAllPlaylistsEv⟩

/-- The `for (const trackId of trackIds) if (!includes) push` loop of
`addTracks`, checking membership against the growing list. -/
def addNew (base : List String) (newIds : List String) : List String :=
  newIds.foldl (fun acc tid => if acc.contains tid then acc else acc ++ [tid]) base

/-- Embedding of the playlist store `addTracks(playlistId, userId,
trackIds)`: unlike `addTrack`, the timestamp bump and the save sit
outside the loop and run on every owned call. -/
def addTracksP (now : String) (st : List Playlist) (pid uid : String) (tids : List String) :
    OpResult (Option Playlist) (List Playlist) :=
  let (ps, e) := getAllPlaylistsT st
  match findIdxElem (pOwned pid uid) ps with
  | none => ⟨none, st, e⟩
  | some (i, p) =>
    let p' := { p with trackIds := addNew p.trackIds tids, updatedAt := now }
    ⟨some p', ps.set i p', e ++ saveAllPlaylistsEv⟩

/-- Embedding of the playlist store `removeTrack(playlistId, userId,
trackId)`. -/
def removeTrackP (now : String) (st : List Playlist) (pid uid tid : String) :
    OpResult (Option Playlist) (List Playlist) :=
  let (ps, e) := getAllPlaylistsT st
  match findIdxElem (pOwned pid uid) ps with
  | none => ⟨none, st, e⟩
  | some (i, p) =>
    let p' := { p with trackIds := p.trackIds.filter (fun x => !(x == tid)), updatedAt := now }
    ⟨some p', ps.set i p', e ++ saveAllPlaylistsEv⟩

/-!
Path resolver (`src/utils/resolveTrackPath.js`).  The filesystem is a
pure oracle `fsEx` (the `fs.existsSync` lookups), and the two Unicode
normalizations are abstract functions, since `String.normalize` is a
host-library table.  The `!filePath` guard is falsy on the empty
string (the `null` case is the empty string here).
-/

/-- Model of `path.join(dir, file)` for a relative file under a root. -/
def joinPath (dir file : String) : String := dir ++ "/" ++ file

/-- Embedding of `resolveTrackPath(songsDir, filePath)`. -/
def resolveTrackPath (fsEx : String → Bool) (nfc nfd : String → String)
    (songsDir filePath : String) : Option String :=
  if filePath == "" then none
  else
    let original := joinPath songsDir filePath
    if fsEx original then some original
    else
      let nfcPath := joinPath songsDir (nfc filePath)
      if fsEx nfcPath then some nfcPath
      else
        let nfdPath := joinPath songsDir (nfd filePath)
        if fsEx nfdPath then some nfdPath
        else none

/-!
Streaming responder (`GET /tracks/:id/stream`, range branch).  The
file is a byte list; `fs.createReadStream(filePath, {start, end})`
streams the inclusive span.
-/

/-- Response emitted by the stream endpoint once the file is resolved:
the 416 rejection, the 206 partial response, or the 200 full
response. -/
inductive StreamResp where
  | err416 (code : String)
  | resp206 (contentRange : String) (contentLength : Nat) (body : List Nat)
  | resp200 (contentLength : Nat) (body : List Nat)
deriving DecidableEq, Repr

/-- Inclusive byte span `[start, endB]` of the file, as streamed by
`fs.createReadStream(filePath, {start, end})`. -/
def fileSlice (file : List Nat) (start endB : Nat) : List Nat :=
  (file.drop start).take (endB - start + 1)

/-- Range branch of the stream handler, after the header was parsed to
a numeric `start` and an optional numeric `end` (absent `end` defaults
to `fileSize - 1`). -/
def streamRangeResponse (file : List Nat) (start : Nat) (endOpt : Option Nat) : StreamResp :=
  let fileSize := file.length
  let endB := endOpt.getD (fileSize - 1)
  if fileSize ≤ start ∨ fileSize ≤ endB ∨ endB < start then
    .err416 "RANGE_NOT_SATISFIABLE"
  else
    let chunkSize := endB - start + 1
    .resp206 ("bytes " ++ toString start ++ "-" ++ toString endB ++ "/" ++ toString fileSize)
      chunkSize (fileSlice file start endB)

/-- No-Range branch of the stream handler. -/
def streamNoRange (file : List Nat) : StreamResp := .resp200 file.length file

/-- The stream handler after file resolution: dispatch on the presence
of a (parsed) Range header. -/
def streamResponse (file : List Nat) (req : Option (Nat × Option Nat)) : StreamResp :=
  match req with
  | some se => streamRangeResponse file se.1 se.2
  | none => streamNoRange file

/-!
Raw Range-header parsing of the stream handler, with JavaScript `NaN`
semantics (`none` is `NaN`):

```js
const parts = range.replace(/bytes=/, '').split('-');
const start = parseInt(parts[0], 10);
const end = parts[1] ? parseInt(parts[1], 10) : fileSize - 1;
if (start >= fileSize || end >= fileSize || start > end) { 416 }
const chunkSize = end - start + 1;
```
-/

/-- First-occurrence removal of a pattern, modelling the non-global
regex `replace(/bytes=/, '')`. -/
def replaceFirst (pat : List Char) : List Char → List Char
  | [] => []
  | x :: xs => if pat.isPrefixOf (x :: xs) then (x :: xs).drop pat.length else x :: replaceFirst pat xs

/-- Model of `split('-')` on a single-character separator. -/
def splitOnDash : List Char → List (List Char)
  | [] => [[]]
  | c :: cs =>
    if c == '-' then [] :: splitOnDash cs
    else
      match splitOnDash cs with
      | [] => [[c]]
      | g :: gs => (c :: g) :: gs

/-- Model of `parseInt(s, 10)` on a string containing no `-` (the
split parts cannot contain the separator): skip leading whitespace, an
optional `+`, then leading digits; `none` models `NaN`. -/
def jsParseIntNat (cs : List Char) : Option Nat :=
  let cs1 := cs.dropWhile (fun c => c.isWhitespace)
  let cs2 := match cs1 with
    | '+' :: rest => rest
    | _ => cs1
  let ds := cs2.takeWhile (fun c => c.isDigit)
  if ds.isEmpty then none
  else some (ds.foldl (fun n c => n * 10 + (c.toNat - 48)) 0)

/-- Raw parse of the Range header into `(start, end)` with `NaN` as
`none`; `parts[1]` is falsy when absent or empty, in which case `end`
defaults to `fileSize - 1` (callers stream an existing file, so
`fileSize ≥ 1`). -/
def parseRange (range : String) (fileSize : Nat) : Option Nat × Option Nat :=
  let parts := splitOnDash (replaceFirst "bytes=".toList range.toList)
  let startV := jsParseIntNat (parts.getD 0 [])
  let endV : Option Nat :=
    match parts[1]? with
    | some p1 => if p1.isEmpty then some (fileSize - 1) else jsParseIntNat p1
    | none => some (fileSize - 1)
  (startV, endV)

/-- JavaScript `a >= b` where `a` may be `NaN`: false on `NaN`. -/
def jsGeNaN (a : Option Nat) (b : Nat) : Bool :=
  match a with
  | none => false
  | some x => decide (b ≤ x)

/-- JavaScript `a > b` where either side may be `NaN`: false on `NaN`. -/
def jsGtNaN (a b : Option Nat) : Bool :=
  match a, b with
  | some x, some y => decide (y < x)
  | _, _ => false

/-- The handler's validation `start >= fileSize || end >= fileSize ||
start > end` applied to the raw parse. -/
def rangeRejected (range : String) (fileSize : Nat) : Bool :=
  let se := parseRange range fileSize
  jsGeNaN se.1 fileSize || jsGeNaN se.2 fileSize || jsGtNaN se.1 se.2

/-- The Content-Length `end - start + 1` computed by the success
branch, `none` when the arithmetic involves `NaN`. -/
def rangeContentLength (range : String) (fileSize : Nat) : Option Nat :=
  let se := parseRange range fileSize
  match se.1, se.2 with
  | some sv, some ev => some (ev - sv + 1)
  | _, _ => none

/-!
Shared helper lemmas.
-/

/-- A `findIdxElem` miss means no element satisfies the predicate. -/
theorem findIdxElem_eq_none {q : α → Bool} {l : List α} :
    findIdxElem q l = none ↔ ∀ x ∈ l, q x = false := by
  induction l with
  | nil => simp [findIdxElem]
  | cons x xs ih =>
    by_cases h : q x = true
    · simp [findIdxElem, h]
    · simp only [Bool.not_eq_true] at h
      simp [findIdxElem, h, Option.map_eq_none', ih]

/-- A `findIdxElem` hit returns a satisfying element at its index. -/
theorem findIdxElem_spec {q : α → Bool} : ∀ {l : List α} {i : Nat} {x : α},
    findIdxElem q l = some (i, x) → q x = true ∧ l[i]? = some x
  | [], i, x => by simp [findIdxElem]
  | y :: ys, i, x => by
    simp only [findIdxElem]
    split
    · next hq =>
      intro h
      simp only [Option.some.injEq, Prod.mk.injEq] at h
      obtain ⟨rfl, rfl⟩ := h
      exact ⟨hq, by simp⟩
    · next hq =>
      intro h
      rw [Option.map_eq_some'] at h
      obtain ⟨⟨j, z⟩, hj, heq⟩ := h
      simp only [Prod.mk.injEq] at heq
      obtain ⟨rfl, rfl⟩ := heq
      have hz := findIdxElem_spec hj
      exact ⟨hz.1, by simpa using hz.2⟩

/-- Searching an append whose left part has no hit searches the right
part. -/
theorem find?_append_left_none {q : α → Bool} {l1 l2 : List α}
    (h : l1.find? q = none) : (l1 ++ l2).find? q = l2.find? q := by
  induction l1 with
  | nil => simp
  | cons x xs ih =>
    rw [List.find?_cons] at h
    rcases hq : q x with _ | _
    · rw [List.cons_append, List.find?_cons, hq]
      exact ih (by rwa [hq] at h)
    · rw [hq] at h; exact absurd h (by simp)

/-!
Claim theorems.
-/

/-- C1: for the stream endpoint with a parsed Range of `start`
(required) and `end` (defaulting to `fileSize - 1` when absent), the
response is 416 RANGE_NOT_SATISFIABLE exactly when `start >= fileSize`,
`end >= fileSize` or `start > end`; otherwise it is 206 with
`Content-Range: bytes <start>-<end>/<fileSize>`, Content-Length
`end - start + 1`, and a body that is byte-for-byte the inclusive span
`[start, end]` of the file; with no Range header it is 200 with
Content-Length `fileSize` and the whole file as body. -/
theorem C1_stream_range_semantics (file : List Nat) (start : Nat) (endOpt : Option Nat) :
    (streamRangeResponse file start endOpt = StreamResp.err416 "RANGE_NOT_SATISFIABLE" ↔
      (file.length ≤ start ∨ file.length ≤ endOpt.getD (file.length - 1) ∨
        endOpt.getD (file.length - 1) < start)) ∧
    (∀ endB, endB = endOpt.getD (file.length - 1) →
      start < file.length → endB < file.length → start ≤ endB →
      streamRangeResponse file start endOpt =
        StreamResp.resp206
          ("bytes " ++ toString start ++ "-" ++ toString endB ++ "/" ++ toString file.length)
          (endB - start + 1) (fileSlice file start endB) ∧
      (fileSlice file start endB).length = endB - start + 1 ∧
      (∀ k, k < endB - start + 1 → (fileSlice file start endB)[k]? = file[start + k]?)) ∧
    streamResponse file none = StreamResp.resp200 file.length file := by
  refine ⟨?_, ?_, rfl⟩
  · by_cases h : file.length ≤ start ∨ file.length ≤ endOpt.getD (file.length - 1) ∨
        endOpt.getD (file.length - 1) < start
    · simp [streamRangeResponse, h]
    · simp [streamRangeResponse, h]
  · rintro endB rfl h1 h2 h3
    have hcond : ¬(file.length ≤ start ∨ file.length ≤ endOpt.getD (file.length - 1) ∨
        endOpt.getD (file.length - 1) < start) := by omega
    refine ⟨by simp [streamRangeResponse, hcond], ?_, ?_⟩
    · simp only [fileSlice, List.length_take, List.length_drop]
      omega
    · intro k hk
      simp only [fileSlice]
      rw [List.getElem?_take, if_pos hk, List.getElem?_drop]

/-- Witness for C1: a 5-byte file and `Range: bytes=1-3` yield a 206
with `Content-Range: bytes 1-3/5`, Content-Length 3 and the bytes at
offsets 1..3. -/
theorem C1_stream_range_semantics_witness :
    (1 : Nat) < ([10, 11, 12, 13, 14] : List Nat).length ∧
    streamRangeResponse [10, 11, 12, 13, 14] 1 (some 3) =
      StreamResp.resp206 "bytes 1-3/5" 3 [11, 12, 13] := by
  have h := (C1_stream_range_semantics [10, 11, 12, 13, 14] 1 (some 3)).2.1 3
    (by decide) (by decide) (by decide) (by decide)
  refine ⟨by decide, ?_⟩
  rw [h.1]
  rfl

/-- C2: when no stored playlist carries both the given id and the
given owner `userId`, every mutating playlist operation returns its
not-found result (`none`, or `false` for `remove`), leaves the
persisted collection exactly as it was, and performs no save (its
trace is the single initial load). -/
theorem C2_ownership_not_found (now : String) (ps : List Playlist) (pid uid : String)
    (u : PlaylistUpdates) (tid : String) (tids : List String)
    (h : ∀ p ∈ ps, ¬(p.id = pid ∧ p.userId = uid)) :
    updateP now ps pid uid u = ⟨none, ps, [Ev.load]⟩ ∧
    removeP ps pid uid = ⟨false, ps, [Ev.load]⟩ ∧
    addTrackP now ps pid uid tid = ⟨none, ps, [Ev.load]⟩ ∧
    addTracksP now ps pid uid tids = ⟨none, ps, [Ev.load]⟩ ∧
    removeTrackP now ps pid uid tid = ⟨none, ps, [Ev.load]⟩ := by
  have hnone : findIdxElem (pOwned pid uid) ps = none := by
    rw [findIdxElem_eq_none]
    intro p hp
    have := h p hp
    simp only [pOwned, Bool.and_eq_false_iff, beq_eq_false_iff_ne, ne_eq]
    by_cases h1 : p.id = pid
    · exact Or.inr (fun h2 => this ⟨h1, h2⟩)
    · exact Or.inl h1
  refine ⟨?_, ?_, ?_, ?_, ?_⟩ <;>
    simp [updateP, removeP, addTrackP, addTracksP, removeTrackP, getAllPlaylistsT, hnone]

/-- Witness for C2: a store holding one playlist owned by `u1`
rejects every mutating call issued as `u2` without touching state. -/
theorem C2_ownership_not_found_witness :
    updateP "T9" [⟨"p1", "u1", "mix", ["A"], "T0", "T1"⟩] "p1" "u2" ⟨none, none⟩ =
      ⟨none, [⟨"p1", "u1", "mix", ["A"], "T0", "T1"⟩], [Ev.load]⟩ ∧
    removeP [⟨"p1", "u1", "mix", ["A"], "T0", "T1"⟩] "p1" "u2" =
      ⟨false, [⟨"p1", "u1", "mix", ["A"], "T0", "T1"⟩], [Ev.load]⟩ := by
  have h := C2_ownership_not_found "T9" [⟨"p1", "u1", "mix", ["A"], "T0", "T1"⟩]
    "p1" "u2" ⟨none, none⟩ "B" ["B"] (by decide)
  exact ⟨h.1, h.2.1⟩

/-- C3: track ingestion is idempotent on the case-insensitive
(artist, trackName) key.  A hit of the dedup lookup returns the
existing track without writing; a miss appends and persists; and two
`addTrack` calls whose arguments share the key in any case variant
leave exactly one such track stored, the second call returning the
first call's track. -/
theorem C3_idempotent_ingestion :
    (∀ (ts : List Track) (t ex : Track),
      ts.find? (trackMatches t.artist t.trackName) = some ex →
      addTrack ts t = ⟨ex, ts, [Ev.load]⟩) ∧
    (∀ (ts : List Track) (t : Track),
      ts.find? (trackMatches t.artist t.trackName) = none →
      addTrack ts t = ⟨t, ts ++ [t], [Ev.load, Ev.load, Ev.save]⟩) ∧
    (∀ (ts : List Track) (t1 t2 : Track),
      jsToLower t2.artist = jsToLower t1.artist →
      jsToLower t2.trackName = jsToLower t1.trackName →
      (∀ u ∈ ts, trackMatches t1.artist t1.trackName u = false) →
      (addTrack ts t1).ret = t1 ∧
      addTrack (addTrack ts t1).state t2 = ⟨t1, (addTrack ts t1).state, [Ev.load]⟩ ∧
      (addTrack (addTrack ts t1).state t2).state.countP
        (trackMatches t2.artist t2.trackName) = 1) := by
  have hhit : ∀ (ts : List Track) (t ex : Track),
      ts.find? (trackMatches t.artist t.trackName) = some ex →
      addTrack ts t = ⟨ex, ts, [Ev.load]⟩ := by
    intro ts t ex hex
    simp [addTrack, findByArtistAndName, getAllTracksT, saveAllTracksEv, hex]
  have hmiss : ∀ (ts : List Track) (t : Track),
      ts.find? (trackMatches t.artist t.trackName) = none →
      addTrack ts t = ⟨t, ts ++ [t], [Ev.load, Ev.load, Ev.save]⟩ := by
    intro ts t hno
    simp [addTrack, findByArtistAndName, getAllTracksT, saveAllTracksEv, hno]
  refine ⟨hhit, hmiss, ?_⟩
  intro ts t1 t2 hk1 hk2 hnew
  have hfun : trackMatches t2.artist t2.trackName = trackMatches t1.artist t1.trackName := by
    funext u
    simp [trackMatches, hk1, hk2]
  have hnone1 : ts.find? (trackMatches t1.artist t1.trackName) = none := by
    rw [List.find?_eq_none]
    intro u hu
    simp [hnew u hu]
  have hself : trackMatches t1.artist t1.trackName t1 = true := by
    simp [trackMatches]
  have hstep1 : addTrack ts t1 = ⟨t1, ts ++ [t1], [Ev.load, Ev.load, Ev.save]⟩ :=
    hmiss ts t1 hnone1
  have hfind2 : (ts ++ [t1]).find? (trackMatches t2.artist t2.trackName) = some t1 := by
    rw [hfun, find?_append_left_none hnone1]
    simp [List.find?, hself]
  refine ⟨by rw [hstep1], ?_, ?_⟩
  · rw [hstep1]
    exact hhit (ts ++ [t1]) t2 t1 hfind2
  · rw [hstep1, hhit (ts ++ [t1]) t2 t1 hfind2]
    rw [hfun, List.countP_append]
    have h0 : ts.countP (trackMatches t1.artist t1.trackName) = 0 := by
      rw [List.countP_eq_zero]
      intro u hu
      simp [hnew u hu]
    simp [h0, List.countP_cons, hself]

/-- Witness for C3: adding Muse / Starlight then muse / STARLIGHT to
an empty store keeps a single stored track and the second call returns
the first track. -/
theorem C3_idempotent_ingestion_witness :
    (addTrack [] ⟨"id1", "Starlight", "Muse", none, 0⟩).ret =
      ⟨"id1", "Starlight", "Muse", none, 0⟩ ∧
    addTrack (addTrack [] ⟨"id1", "Starlight", "Muse", none, 0⟩).state
        ⟨"id2", "STARLIGHT", "muse", none, 5⟩ =
      ⟨⟨"id1", "Starlight", "Muse", none, 0⟩,
        (addTrack [] ⟨"id1", "Starlight", "Muse", none, 0⟩).state, [Ev.load]⟩ ∧
    (addTrack (addTrack [] ⟨"id1", "Starlight", "Muse", none, 0⟩).state
        ⟨"id2", "STARLIGHT", "muse", none, 5⟩).state.countP
      (trackMatches "muse" "STARLIGHT") = 1 :=
  C3_idempotent_ingestion.2.2 [] ⟨"id1", "Starlight", "Muse", none, 0⟩
    ⟨"id2", "STARLIGHT", "muse", none, 5⟩ (by decide) (by decide) (by decide)

/-- Declarative description of what `addTracks` appends: the new ids
not already in `base`, first occurrence first, each id at most once. -/
def dedupAppend (base : List String) : List String → List String
  | [] => []
  | x :: xs => if base.contains x then dedupAppend base xs else x :: dedupAppend (base ++ [x]) xs

/-- One step of the `addTracks` fold. -/
theorem addNew_cons (base : List String) (x : String) (xs : List String) :
    addNew base (x :: xs) = addNew (if base.contains x then base else base ++ [x]) xs := rfl

/-- The `addTracks` fold is the original list followed by the deduped
new suffix. -/
theorem addNew_eq_dedupAppend : ∀ (l base : List String),
    addNew base l = base ++ dedupAppend base l
  | [], base => by simp [addNew, dedupAppend]
  | x :: xs, base => by
    rw [addNew_cons]
    simp only [dedupAppend]
    by_cases hx : base.contains x
    · rw [if_pos hx, if_pos hx]
      exact addNew_eq_dedupAppend xs base
    · rw [if_neg hx, if_neg hx, addNew_eq_dedupAppend xs (base ++ [x])]
      simp

/-- Membership in the appended suffix: exactly the new ids that were
not already present. -/
theorem mem_dedupAppend {y : String} : ∀ {l base : List String},
    y ∈ dedupAppend base l ↔ y ∈ l ∧ y ∉ base
  | [], base => by simp [dedupAppend]
  | x :: xs, base => by
    simp only [dedupAppend]
    by_cases hx : base.contains x
    · rw [if_pos hx]
      have hxm : x ∈ base := List.elem_iff.mp hx
      rw [mem_dedupAppend]
      constructor
      · rintro ⟨h1, h2⟩
        exact ⟨List.mem_cons_of_mem _ h1, h2⟩
      · rintro ⟨h1, h2⟩
        rcases List.mem_cons.mp h1 with rfl | h1'
        · exact absurd hxm h2
        · exact ⟨h1', h2⟩
    · rw [if_neg hx]
      have hxm : x ∉ base := fun hc => hx (List.elem_iff.mpr hc)
      rw [List.mem_cons, mem_dedupAppend]
      constructor
      · rintro (rfl | ⟨h1, h2⟩)
        · exact ⟨List.mem_cons_self _ _, hxm⟩
        · refine ⟨List.mem_cons_of_mem _ h1, fun hc => h2 ?_⟩
          simp [hc]
      · rintro ⟨h1, h2⟩
        rcases List.mem_cons.mp h1 with rfl | h1'
        · exact Or.inl rfl
        · by_cases hyx : y = x
          · exact Or.inl hyx
          · refine Or.inr ⟨h1', fun hc => ?_⟩
            simp only [List.mem_append, List.mem_singleton] at hc
            rcases hc with hc | hc
            · exact h2 hc
            · exact hyx hc

/-- The `addTracks` fold never introduces a duplicate id. -/
theorem addNew_nodup : ∀ (l base : List String), base.Nodup →
    (base ++ dedupAppend base l).Nodup
  | [], base, hb => by simpa [dedupAppend] using hb
  | x :: xs, base, hb => by
    simp only [dedupAppend]
    by_cases hx : base.contains x
    · rw [if_pos hx]
      exact addNew_nodup xs base hb
    · rw [if_neg hx]
      have hxm : x ∉ base := fun hc => hx (List.elem_iff.mpr hc)
      have hb' : (base ++ [x]).Nodup := by
        simp [List.nodup_append, hb, hxm]
      have h := addNew_nodup xs (base ++ [x]) hb'
      simpa [List.append_assoc] using h

/-- C4: on an owned playlist, `addTracks` acts as set union with
append order: already-present ids are skipped, absent ids are appended
at the end in first-occurrence order, the existing prefix is kept
verbatim, no duplicate is introduced, and adding `[B, C, A, D]` to
`[A, B]` yields `[A, B, C, D]`. -/
theorem C4_addTracks_set_union (now : String) (ps : List Playlist) (pid uid : String)
    (newIds : List String) (i : Nat) (p : Playlist)
    (hfind : findIdxElem (pOwned pid uid) ps = some (i, p)) :
    addTracksP now ps pid uid newIds =
      ⟨some { p with trackIds := p.trackIds ++ dedupAppend p.trackIds newIds, updatedAt := now },
       ps.set i { p with trackIds := p.trackIds ++ dedupAppend p.trackIds newIds, updatedAt := now },
       [Ev.load, Ev.save]⟩ ∧
    (∀ y, y ∈ dedupAppend p.trackIds newIds ↔ y ∈ newIds ∧ y ∉ p.trackIds) ∧
    (p.trackIds.Nodup → (p.trackIds ++ dedupAppend p.trackIds newIds).Nodup) ∧
    addNew ["A", "B"] ["B", "C", "A", "D"] = ["A", "B", "C", "D"] := by
  refine ⟨?_, fun y => mem_dedupAppend, fun h => addNew_nodup newIds p.trackIds h, by decide⟩
  simp [addTracksP, getAllPlaylistsT, saveAllPlaylistsEv, hfind, addNew_eq_dedupAppend]

/-- Witness for C4: adding `[B, C, A, D]` to the owned playlist with
`trackIds = [A, B]` stores and returns `[A, B, C, D]`. -/
theorem C4_addTracks_set_union_witness :
    addTracksP "T2" [⟨"p1", "u1", "mix", ["A", "B"], "T0", "T1"⟩] "p1" "u1"
        ["B", "C", "A", "D"] =
      ⟨some ⟨"p1", "u1", "mix", ["A", "B", "C", "D"], "T0", "T2"⟩,
       [⟨"p1", "u1", "mix", ["A", "B", "C", "D"], "T0", "T2"⟩], [Ev.load, Ev.save]⟩ := by
  have h := (C4_addTracks_set_union "T2" [⟨"p1", "u1", "mix", ["A", "B"], "T0", "T1"⟩]
    "p1" "u1" ["B", "C", "A", "D"] 0 ⟨"p1", "u1", "mix", ["A", "B"], "T0", "T1"⟩ (by decide)).1
  rw [h]
  rfl

/-- The `paginate` helper always reports at least one total page
(`Math.ceil(total / limit) || 1`). -/
theorem paginate_totalPages_pos (items : List α) (page limit : Nat) :
    1 ≤ (paginate items page limit).totalPages := by
  simp only [paginate]
  split
  · exact le_refl 1
  · next h =>
    simp only [beq_iff_eq] at h
    exact Nat.one_le_iff_ne_zero.mpr h

/-- C5 counterexample: the track store `getAll` does not clamp.  With
one stored track (one total page) and `page = 5`, it answers with
`page = 5` and an empty data array, so the page used lies outside
`[1, totalPages]` and an empty page beyond the end is returned. -/
theorem C5_counterexample_getAll_no_clamp :
    (getAll [⟨"t1", "Song", "Artist", none, 0⟩] 5 20 "" "").ret.page = 5 ∧
    (getAll [⟨"t1", "Song", "Artist", none, 0⟩] 5 20 "" "").ret.totalPages = 1 ∧
    (getAll [⟨"t1", "Song", "Artist", none, 0⟩] 5 20 "" "").ret.data = [] ∧
    ¬((getAll [⟨"t1", "Song", "Artist", none, 0⟩] 5 20 "" "").ret.page ≤
      (getAll [⟨"t1", "Song", "Artist", none, 0⟩] 5 20 "" "").ret.totalPages) := by
  decide

/-- C5 amended: the `paginate` utility (used for the tracks listed
inside a playlist) clamps the page into `[1, totalPages]` and returns
that page's slice; the repository listing operations `getAll` (tracks)
and `getByUserId` (playlists) do not clamp: a page beyond the end
yields an empty data array with the requested page number echoed. -/
theorem C5_pagination_clamping_amended :
    (∀ (α : Type) (items : List α) (page limit : Nat),
      1 ≤ (paginate items page limit).page ∧
      (paginate items page limit).page ≤ (paginate items page limit).totalPages ∧
      (paginate items page limit).page =
        max 1 (min page (paginate items page limit).totalPages) ∧
      (paginate items page limit).data =
        (items.drop (((paginate items page limit).page - 1) * limit)).take limit) ∧
    (∀ (st : List Track) (page limit : Nat),
      st.length ≤ (page - 1) * limit →
      (getAll st page limit "" "").ret.page = page ∧
      (getAll st page limit "" "").ret.data = []) ∧
    (∀ (st : List Playlist) (uid : String) (page limit : Nat),
      (st.filter (fun p => p.userId == uid)).length ≤ (page - 1) * limit →
      (getByUserId st uid page limit).ret.page = page ∧
      (getByUserId st uid page limit).ret.data = []) := by
  refine ⟨?_, ?_, ?_⟩
  · intro α items page limit
    have hP := paginate_totalPages_pos items page limit
    refine ⟨?_, ?_, rfl, rfl⟩
    · exact le_max_left 1 _
    · simp only [paginate] at hP ⊢
      exact max_le hP (min_le_right _ _)
  · intro st page limit hlen
    have hd : st.drop ((page - 1) * limit) = [] := List.drop_eq_nil_of_le hlen
    refine ⟨rfl, ?_⟩
    simp only [getAll, getAllTracksT, searchFilter]
    simp [hd]
  · intro st uid page limit hlen
    have hd : (st.filter (fun p => p.userId == uid)).drop ((page - 1) * limit) = [] :=
      List.drop_eq_nil_of_le hlen
    refine ⟨rfl, ?_⟩
    simp only [getByUserId, getAllPlaylistsT]
    simp [hd]

/-- Witness for C5 (amended): the unclamped `getAll` at page 5 of a
one-track store, and the clamped `paginate` staying within bounds on
the same request. -/
theorem C5_pagination_clamping_amended_witness :
    ((getAll [⟨"t1", "Song", "Artist", none, 0⟩] 5 20 "" "").ret.page = 5 ∧
     (getAll [⟨"t1", "Song", "Artist", none, 0⟩] 5 20 "" "").ret.data = []) ∧
    (paginate [Track.mk "t1" "Song" "Artist" none 0] 5 20).page ≤
      (paginate [Track.mk "t1" "Song" "Artist" none 0] 5 20).totalPages :=
  ⟨C5_pagination_clamping_amended.2.1 [Track.mk "t1" "Song" "Artist" none 0] 5 20 (by decide),
   (C5_pagination_clamping_amended.1 Track [Track.mk "t1" "Song" "Artist" none 0] 5 20).2.1⟩

/-- C6 counterexample: the multi-id `addTracks`, called on an owned
playlist whose ids are all already present, still rewrites `updatedAt`
(from `"T1"` to the call-time `"T2"`) and still saves, even though
nothing was appended. -/
theorem C6_counterexample_addTracks_always_touches :
    (addTracksP "T2" [⟨"p1", "u1", "mix", ["A"], "T0", "T1"⟩] "p1" "u1" ["A"]).ret =
      some ⟨"p1", "u1", "mix", ["A"], "T0", "T2"⟩ ∧
    (addTracksP "T2" [⟨"p1", "u1", "mix", ["A"], "T0", "T1"⟩] "p1" "u1" ["A"]).state =
      [⟨"p1", "u1", "mix", ["A"], "T0", "T2"⟩] ∧
    (addTracksP "T2" [⟨"p1", "u1", "mix", ["A"], "T0", "T1"⟩] "p1" "u1" ["A"]).trace =
      [Ev.load, Ev.save] ∧
    ("T2" : String) ≠ "T1" := by
  refine ⟨rfl, rfl, rfl, by decide⟩

/-- C6 amended: the single-id `addTrack` touches `updatedAt` and saves
only when the id was actually appended (an already-present id leaves
the document and timestamp untouched and performs no save), but the
multi-id `addTracks` rewrites `updatedAt` and saves on every owned
call, even when every id is already present. -/
theorem C6_updatedAt_touch_amended (now : String) (ps : List Playlist) (pid uid tid : String)
    (tids : List String) (i : Nat) (p : Playlist)
    (hfind : findIdxElem (pOwned pid uid) ps = some (i, p)) :
    (tid ∈ p.trackIds →
      addTrackP now ps pid uid tid = ⟨some p, ps, [Ev.load]⟩) ∧
    (tid ∉ p.trackIds →
      addTrackP now ps pid uid tid =
        ⟨some { p with trackIds := p.trackIds ++ [tid], updatedAt := now },
         ps.set i { p with trackIds := p.trackIds ++ [tid], updatedAt := now },
         [Ev.load, Ev.save]⟩) ∧
    (addTracksP now ps pid uid tids).ret =
      some { p with trackIds := addNew p.trackIds tids, updatedAt := now } ∧
    (addTracksP now ps pid uid tids).trace = [Ev.load, Ev.save] := by
  refine ⟨?_, ?_, ?_, ?_⟩
  · intro hmem
    simp [addTrackP, getAllPlaylistsT, saveAllPlaylistsEv, hfind, hmem]
  · intro hmem
    simp [addTrackP, getAllPlaylistsT, saveAllPlaylistsEv, hfind, hmem]
  · simp [addTracksP, getAllPlaylistsT, saveAllPlaylistsEv, hfind]
  · simp [addTracksP, getAllPlaylistsT, saveAllPlaylistsEv, hfind]

/-- Witness for C6 (amended): a no-op single-id add leaves the stored
playlist and its timestamp untouched with no save. -/
theorem C6_updatedAt_touch_amended_witness :
    addTrackP "T2" [⟨"p1", "u1", "mix", ["A"], "T0", "T1"⟩] "p1" "u1" "A" =
      ⟨some ⟨"p1", "u1", "mix", ["A"], "T0", "T1"⟩,
       [⟨"p1", "u1", "mix", ["A"], "T0", "T1"⟩], [Ev.load]⟩ :=
  (C6_updatedAt_touch_amended "T2" [⟨"p1", "u1", "mix", ["A"], "T0", "T1"⟩] "p1" "u1" "A"
    ["A"] 0 ⟨"p1", "u1", "mix", ["A"], "T0", "T1"⟩ (by decide)).1 (by decide)

/-- C7: `resolveTrackPath` returns the first existing candidate in the
fixed order as-given, NFC, NFD — it equals `find?` of the existence
oracle over that candidate list; an empty (falsy) `filePath` resolves
to `none`; a file present under the precomposed or the decomposed form
resolves successfully; and when no candidate exists the result is
`none`.  The embedding is a pure function of the existence oracle, so
the lookup has no filesystem side effects. -/
theorem C7_resolveTrackPath_fallback (fsEx : String → Bool) (nfc nfd : String → String)
    (dir fp : String) :
    (fp = "" → resolveTrackPath fsEx nfc nfd dir fp = none) ∧
    (fp ≠ "" →
      resolveTrackPath fsEx nfc nfd dir fp =
        [joinPath dir fp, joinPath dir (nfc fp), joinPath dir (nfd fp)].find? fsEx) ∧
    (fp ≠ "" → fsEx (joinPath dir (nfc fp)) = true →
      (resolveTrackPath fsEx nfc nfd dir fp).isSome = true) ∧
    (fp ≠ "" → fsEx (joinPath dir (nfd fp)) = true →
      (resolveTrackPath fsEx nfc nfd dir fp).isSome = true) ∧
    (fsEx (joinPath dir fp) = false → fsEx (joinPath dir (nfc fp)) = false →
      fsEx (joinPath dir (nfd fp)) = false →
      resolveTrackPath fsEx nfc nfd dir fp = none) := by
  by_cases hfp : fp = ""
  · subst hfp
    refine ⟨fun _ => by simp [resolveTrackPath], fun h => absurd rfl h,
      fun h => absurd rfl h, fun h => absurd rfl h, fun _ _ _ => by simp [resolveTrackPath]⟩
  · have hb : (fp == "") = false := by simpa using hfp
    refine ⟨fun h => absurd h hfp, fun _ => ?_, fun _ h2 => ?_, fun _ h3 => ?_,
      fun h1 h2 h3 => ?_⟩
    · simp only [resolveTrackPath, hb, Bool.false_eq_true, if_false, List.find?]
      rcases h1 : fsEx (joinPath dir fp) <;>
        rcases h2 : fsEx (joinPath dir (nfc fp)) <;>
          rcases h3 : fsEx (joinPath dir (nfd fp)) <;> simp [h1, h2, h3]
    · simp only [resolveTrackPath, hb, Bool.false_eq_true, if_false, h2]
      rcases h1 : fsEx (joinPath dir fp) <;> simp [h1, h2]
    · simp only [resolveTrackPath, hb, Bool.false_eq_true, if_false, h3]
      rcases h1 : fsEx (joinPath dir fp) <;>
        rcases h2 : fsEx (joinPath dir (nfc fp)) <;> simp [h1, h2, h3]
    · simp [resolveTrackPath, hb, h1, h2, h3]

/-- Witness for C7: with a file present on disk only under the NFC
spelling, resolution of a non-empty metadata path succeeds. -/
theorem C7_resolveTrackPath_fallback_witness :
    (resolveTrackPath (fun s => s == "songs/cafe-nfc.m4a")
      (fun _ => "cafe-nfc.m4a") (fun _ => "cafe-nfd.m4a")
      "songs" "cafe.m4a").isSome = true :=
  (C7_resolveTrackPath_fallback (fun s => s == "songs/cafe-nfc.m4a")
    (fun _ => "cafe-nfc.m4a") (fun _ => "cafe-nfd.m4a") "songs" "cafe.m4a").2.2.1
    (by decide) (by decide)

/-- C8 counterexample: the track-store `addTrack`, inserting a fresh
track, reads the backing file twice — once inside its
`findByArtistAndName` duplicate check and once more before appending —
so its trace has two loads, not exactly one. -/
theorem C8_counterexample_addTrack_double_load :
    (addTrack [] (Track.mk "t1" "Song" "Artist" none 0)).trace =
      [Ev.load, Ev.load, Ev.save] ∧
    loadCount (addTrack [] (Track.mk "t1" "Song" "Artist" none 0)).trace = 2 := by
  decide

/-- C8 amended: every repository operation is one `loadAll`, in-memory
mutation, then at most one `saveAll` — except the track-store
`addTrack`, whose insert path performs two `loadAll`s (its duplicate
lookup loads once, the append loads again) before its single
`saveAll`; its duplicate path performs one load and no save. -/
theorem C8_load_save_discipline_amended :
    (∀ (st : List Track) (id : String), (findById st id).trace = [Ev.load]) ∧
    (∀ (st : List Track) (ids : List String), (findByIds st ids).trace = [Ev.load]) ∧
    (∀ (st : List Track) (page limit : Nat) (sq sortQ : String),
      (getAll st page limit sq sortQ).trace = [Ev.load]) ∧
    (∀ (st : List Track) (a n : String), (findByArtistAndName st a n).trace = [Ev.load]) ∧
    (∀ (st : List Track) (t : Track) (ex : Track),
      st.find? (trackMatches t.artist t.trackName) = some ex →
      (addTrack st t).trace = [Ev.load]) ∧
    (∀ (st : List Track) (t : Track),
      st.find? (trackMatches t.artist t.trackName) = none →
      (addTrack st t).trace = [Ev.load, Ev.load, Ev.save]) ∧
    (∀ (st nts : List Track), (addTracksMany st nts).trace = [Ev.load, Ev.save]) ∧
    (∀ (now : String) (st : List Playlist) (p : Playlist),
      (createP now st p).trace = [Ev.load, Ev.save]) ∧
    (∀ (now : String) (st : List Playlist) (pid uid : String) (u : PlaylistUpdates),
      loadCount (updateP now st pid uid u).trace = 1 ∧
      saveCount (updateP now st pid uid u).trace ≤ 1) ∧
    (∀ (st : List Playlist) (pid uid : String),
      loadCount (removeP st pid uid).trace = 1 ∧
      saveCount (removeP st pid uid).trace ≤ 1) ∧
    (∀ (now : String) (st : List Playlist) (pid uid tid : String),
      loadCount (addTrackP now st pid uid tid).trace = 1 ∧
      saveCount (addTrackP now st pid uid tid).trace ≤ 1) ∧
    (∀ (now : String) (st : List Playlist) (pid uid : String) (tids : List String),
      loadCount (addTracksP now st pid uid tids).trace = 1 ∧
      saveCount (addTracksP now st pid uid tids).trace ≤ 1) ∧
    (∀ (now : String) (st : List Playlist) (pid uid tid : String),
      loadCount (removeTrackP now st pid uid tid).trace = 1 ∧
      saveCount (removeTrackP now st pid uid tid).trace ≤ 1) := by
  refine ⟨fun st id => rfl, fun st ids => rfl, fun st page limit sq sortQ => rfl,
    fun st a n => rfl, ?_, ?_, fun st nts => rfl, fun now st p => rfl, ?_, ?_, ?_, ?_, ?_⟩
  · intro st t ex hex
    simp [addTrack, findByArtistAndName, getAllTracksT, saveAllTracksEv, hex]
  · intro st t hno
    simp [addTrack, findByArtistAndName, getAllTracksT, saveAllTracksEv, hno]
  · intro now st pid uid u
    rcases hf : findIdxElem (pOwned pid uid) st with _ | ⟨i, p⟩ <;>
      · simp only [updateP, getAllPlaylistsT, saveAllPlaylistsEv, hf]
        decide
  · intro st pid uid
    rcases hf : findIdxElem (pOwned pid uid) st with _ | ⟨i, p⟩ <;>
      · simp only [removeP, getAllPlaylistsT, saveAllPlaylistsEv, hf]
        decide
  · intro now st pid uid tid
    rcases hf : findIdxElem (pOwned pid uid) st with _ | ⟨i, p⟩
    · simp only [addTrackP, getAllPlaylistsT, saveAllPlaylistsEv, hf]
      decide
    · simp only [addTrackP, getAllPlaylistsT, saveAllPlaylistsEv, hf]
      by_cases hmem : tid ∈ p.trackIds <;> simp [hmem] <;> decide
  · intro now st pid uid tids
    rcases hf : findIdxElem (pOwned pid uid) st with _ | ⟨i, p⟩ <;>
      · simp only [addTracksP, getAllPlaylistsT, saveAllPlaylistsEv, hf]
        decide
  · intro now st pid uid tid
    rcases hf : findIdxElem (pOwned pid uid) st with _ | ⟨i, p⟩ <;>
      · simp only [removeTrackP, getAllPlaylistsT, saveAllPlaylistsEv, hf]
        decide

/-- Witness for C8 (amended): the duplicate path of `addTrack` does a
single load and no save, shown on a one-track store re-adding its own
track. -/
theorem C8_load_save_discipline_amended_witness :
    (addTrack [Track.mk "t1" "Song" "Artist" none 0]
      (Track.mk "t2" "song" "ARTIST" none 7)).trace = [Ev.load] :=
  C8_load_save_discipline_amended.2.2.2.2.1
    [Track.mk "t1" "Song" "Artist" none 0] (Track.mk "t2" "song" "ARTIST" none 7)
    (Track.mk "t1" "Song" "Artist" none 0) (by decide)

/-- C9: the loader shared by all four document stores (tracks,
playlists, users, token blocklist) turns a missing backing file
(`ENOENT`) into the empty collection, propagates every other read
error and every parse failure as a thrown error, and never fabricates
data: a successful non-error result is exactly what the parser
produced from the file content. -/
theorem C9_loadAll_missing_file (parse : String → Option (List α)) :
    loadAllDocs FsReadResult.errENOENT parse = Except.ok [] ∧
    (∀ code, loadAllDocs (FsReadResult.errOther code) parse = Except.error code) ∧
    (∀ s, parse s = none →
      loadAllDocs (FsReadResult.content s) parse = Except.error "SyntaxError") ∧
    (∀ s ds, loadAllDocs (FsReadResult.content s) parse = Except.ok ds →
      parse s = some ds) := by
  refine ⟨rfl, fun code => rfl, ?_, ?_⟩
  · intro s hs
    simp [loadAllDocs, hs]
  · intro s ds h
    rcases hp : parse s with _ | ds'
    · simp [loadAllDocs, hp] at h
    · simp only [loadAllDocs, hp] at h
      rcases h with ⟨rfl⟩
      rfl

/-- Witness for C9: a content whose parse fails propagates the error,
a missing file yields the empty collection, another I/O error code is
rethrown. -/
theorem C9_loadAll_missing_file_witness :
    loadAllDocs (FsReadResult.content "not json") (fun _ => (none : Option (List Nat))) =
      Except.error "SyntaxError" ∧
    loadAllDocs FsReadResult.errENOENT (fun _ => (none : Option (List Nat))) =
      Except.ok [] ∧
    loadAllDocs (FsReadResult.errOther "EACCES") (fun _ => (none : Option (List Nat))) =
      Except.error "EACCES" :=
  ⟨(C9_loadAll_missing_file (fun _ => none)).2.2.1 "not json" rfl,
   (C9_loadAll_missing_file (fun _ => none)).1,
   (C9_loadAll_missing_file (fun _ => none)).2.1 "EACCES"⟩

/-- C10: the suffix form `bytes=-500` is a syntactically valid Range
header whose parsed start is `NaN` (`none`), so none of the three
validation comparisons fires and the request is not rejected with 416;
yet the success branch's `end - start + 1` arithmetic is `NaN` as
well, so no correct 206 Content-Length exists: the validation does not
cover all inputs the success branch requires. -/
theorem C10_suffix_range_validation_gap :
    ("bytes=-" ++ toString 500 = "bytes=-500") ∧
    (parseRange "bytes=-500" 1000).1 = none ∧
    (parseRange "bytes=-500" 1000).2 = some 500 ∧
    rangeRejected "bytes=-500" 1000 = false ∧
    rangeContentLength "bytes=-500" 1000 = none := by
  refine ⟨by decide, by decide, by decide, by decide, by decide⟩

end Nexus
